import Mathlib

/-!
Verification of the streaming response aggregator of the repository
(`src/streaming/main.py`, `src/streaming/simple_example.py`).

The aggregator consumes an ordered sequence of incremental fragments
(content deltas, function-call starts, function-call argument deltas) and
maintains accumulated state: the reconstructed full text, the recorded
function calls, and live word/sentence counters.  The definitions below are
a shallow embedding of the per-chunk update logic of the Python demo loops:

* `basic_streaming_demo` / `streaming_with_collection`:
  `full_response += content` for every chunk whose `delta.content` is not
  `None`;
* `function_calling_streaming_demo` (main.py lines 133-148): on a
  `function_call` delta, a truthy `name` appends a new record
  `{name, arguments or ""}`, otherwise a truthy `arguments` is appended to
  the last record when one exists;
* `real_time_processing_demo` (main.py lines 199-206):
  `word_count += len(content.split())`, and when the fragment contains one
  of `.`, `!`, `?`, `sentence_count` is increased by the number of those
  characters in the fragment.
-/

namespace StreamAgg

/-- A fragment of a streamed generation response: a content delta, the start
of a function call (carrying its name), or a function-call arguments delta. -/
inductive Fragment where
  | content (text : String)
  | functionCallStart (name : String)
  | functionCallArgsDelta (text : String)
deriving DecidableEq, Repr

/-- A recorded function call: its name and the accumulated arguments text. -/
structure FunctionCallRecord where
  name : String
  arguments : String
deriving DecidableEq, Repr

/-- The accumulator owned by one in-progress consumption. -/
structure AggregationState where
  full_text : String
  calls : List FunctionCallRecord
  word_count : Nat
  sentence_count : Nat
deriving DecidableEq, Repr

/-- The empty state at the start of one consumption. -/
def initState : AggregationState := ⟨"", [], 0, 0⟩

/-- Helper for `pySplit`: walks the characters, accumulating the current
(reversed) token; whitespace closes the current token, and empty tokens are
dropped. -/
def pySplitAux : List Char → List Char → List String
  | [], acc => if acc.isEmpty then [] else [String.mk acc.reverse]
  | c :: rest, acc =>
    if c.isWhitespace then
      if acc.isEmpty then pySplitAux rest []
      else String.mk acc.reverse :: pySplitAux rest []
    else pySplitAux rest (c :: acc)

/-- Python's `content.split()`: the maximal whitespace-delimited tokens of
the string, in order (splitting on whitespace runs, no empty tokens). -/
def pySplit (s : String) : List String := pySplitAux s.toList []

/-- `len(content.split())`: the number of whitespace-delimited tokens. -/
def countWords (s : String) : Nat := (pySplit s).length

/-- Python's `s.count(c)` for a single character. -/
def charCount (s : String) (c : Char) : Nat :=
  (s.toList.filter (fun d => d = c)).length

/-- `content.count('.') + content.count('!') + content.count('?')`. -/
def sentencePunctCount (s : String) : Nat :=
  charCount s '.' + charCount s '!' + charCount s '?'

/-- `any(punct in content for punct in '.!?')`. -/
def hasSentencePunct (s : String) : Bool :=
  (['.', '!', '?'] : List Char).any (fun p => s.toList.contains p)

/-- The guarded sentence-count increment of `real_time_processing_demo`
(main.py lines 205-206): the punctuation count is added only when the
fragment contains at least one of the three characters. -/
def sentenceIncrement (s : String) : Nat :=
  if hasSentencePunct s then sentencePunctCount s else 0

/-- `function_calls[-1]["arguments"] += t` guarded by `if function_calls:`
(main.py lines 147-148): append to the last record, or do nothing when the
list is empty. -/
def appendToLast : List FunctionCallRecord → String → List FunctionCallRecord
  | [], _ => []
  | [c], t => [⟨c.name, c.arguments ++ t⟩]
  | c :: c' :: rest, t => c :: appendToLast (c' :: rest) t

/-- One step of the aggregator: the per-fragment update performed by the
demo loops, combined over the unified state. -/
def consumeFragment (st : AggregationState) : Fragment → AggregationState
  | .content t =>
    { st with
      full_text := st.full_text ++ t,
      word_count := st.word_count + countWords t,
      sentence_count := st.sentence_count + sentenceIncrement t }
  | .functionCallStart n => { st with calls := st.calls ++ [⟨n, ""⟩] }
  | .functionCallArgsDelta t => { st with calls := appendToLast st.calls t }

/-- Consuming a fragment sequence in arrival order. -/
def consume (frags : List Fragment) (st : AggregationState) : AggregationState :=
  frags.foldl consumeFragment st

/-- The texts of the content fragments of a sequence, in order. -/
def contentTexts : List Fragment → List String
  | [] => []
  | .content t :: rest => t :: contentTexts rest
  | .functionCallStart _ :: rest => contentTexts rest
  | .functionCallArgsDelta _ :: rest => contentTexts rest

/-- Concatenation of a list of strings in order. -/
def concatTexts : List String → String
  | [] => ""
  | t :: rest => t ++ concatTexts rest

/-- The calls component of one aggregation step (content fragments leave the
recorded calls untouched). -/
def stepCalls (cs : List FunctionCallRecord) : Fragment → List FunctionCallRecord
  | .content _ => cs
  | .functionCallStart n => cs ++ [⟨n, ""⟩]
  | .functionCallArgsDelta t => appendToLast cs t

/-- The texts of the argument deltas occurring before the next
function-call start (content fragments are skipped). -/
def argsBefore : List Fragment → List String
  | [] => []
  | .functionCallStart _ :: _ => []
  | .functionCallArgsDelta t :: rest => t :: argsBefore rest
  | .content _ :: rest => argsBefore rest

/-- The grouping of a fragment sequence into call records as the claim
states it: one record per function-call start, whose arguments are the
in-order concatenation of exactly the argument deltas arriving after that
start and before the next one. -/
def specCalls : List Fragment → List FunctionCallRecord
  | [] => []
  | .functionCallStart n :: rest =>
    ⟨n, concatTexts (argsBefore rest)⟩ :: specCalls rest
  | .content _ :: rest => specCalls rest
  | .functionCallArgsDelta _ :: rest => specCalls rest

/-- The `function_call` field of a chunk delta as the code reads it
(main.py lines 139-148): optional name and optional arguments text. -/
structure FunctionCallDelta where
  name : Option String
  arguments : Option String
deriving DecidableEq, Repr

/-- A chunk's delta as the demo loops read it: optional content text and
optional function-call delta. -/
structure ChunkDelta where
  content : Option String
  function_call : Option FunctionCallDelta
deriving DecidableEq, Repr

/-- Python truthiness of an optional string: `None` and `""` are falsy. -/
def optTruthy : Option String → Bool
  | none => false
  | some s => !s.isEmpty

/-- Processing of a `function_call` delta (main.py lines 140-148): a truthy
name appends a new record with `arguments or ""`; otherwise truthy
arguments are appended to the last record when one exists. -/
def applyFunctionCallDelta (st : AggregationState) (fc : FunctionCallDelta) :
    AggregationState :=
  if optTruthy fc.name then
    { st with calls := st.calls ++ [⟨fc.name.getD "", fc.arguments.getD ""⟩] }
  else if optTruthy fc.arguments then
    { st with calls := appendToLast st.calls (fc.arguments.getD "") }
  else st

/-- Processing of one chunk as the demo loops do it: the content branch
(`if delta.content is not None`) followed by the function-call branch
(`if delta.function_call is not None`). -/
def processChunk (st : AggregationState) (c : ChunkDelta) : AggregationState :=
  let st1 :=
    match c.content with
    | none => st
    | some t => consumeFragment st (.content t)
  match c.function_call with
  | none => st1
  | some fc => applyFunctionCallDelta st1 fc

/-- Modelled from the spec: the result of `consume` over a fallible
fragment source.  The demo loops catch the transport fault and stop, with
the partial accumulation still in scope; the spec packages the same data as
a `StreamInterrupted` result carrying the partial state and the cause.
This result type is absent from src. -/
inductive StreamResult (ε : Type) where
  | completed (st : AggregationState)
  | interrupted (partState : AggregationState) (cause : ε)
deriving DecidableEq, Repr

/-- Modelled from the spec: consumption of a fallible fragment source.
Each successfully delivered fragment is folded with `consumeFragment`
exactly as in src; the first source failure stops consumption and yields
`interrupted` with the state accumulated so far and the cause. -/
def consumeSource {ε : Type} : List (Except ε Fragment) → AggregationState → StreamResult ε
  | [], st => .completed st
  | .ok f :: rest, st => consumeSource rest (consumeFragment st f)
  | .error e :: _, st => .interrupted st e

/-- Modelled from the spec: the outcome of a cancellable consumption,
distinguishing normal completion from caller-requested cancellation by a
status tag.  This type is absent from src. -/
inductive CancelOutcome where
  | completed (st : AggregationState)
  | cancelled (st : AggregationState)
deriving DecidableEq, Repr

/-- Modelled from the spec: cooperative cancellation checked only between
fragments.  The budget says how many fragments are processed before the
cancellation request is observed; each processed fragment is folded with
`consumeFragment` exactly as in src, and cancellation is observed only at a
fragment boundary, never mid-fragment. -/
def consumeCancellable : Nat → List Fragment → AggregationState → CancelOutcome
  | _, [], st => .completed st
  | 0, _ :: _, st => .cancelled st
  | Nat.succ n, f :: rest, st => consumeCancellable n rest (consumeFragment st f)

/-- The three content fragments of the claims' concrete scenario. -/
def helloFrags : List Fragment :=
  [.content "Hello ", .content "world", .content "!"]

/-- The function-call fragments of the claims' concrete scenario. -/
def weatherFrags : List Fragment :=
  [.functionCallStart "get_weather",
   .functionCallArgsDelta "\x7b\"loc\":",
   .functionCallArgsDelta "\"NYC\"\x7d"]

end StreamAgg

namespace StreamAgg

theorem str_append_empty (s : String) : s ++ "" = s := by
  apply String.ext
  simp [String.data_append]

theorem str_empty_append (s : String) : "" ++ s = s := by
  apply String.ext
  simp [String.data_append]

theorem str_append_assoc (a b c : String) : a ++ b ++ c = a ++ (b ++ c) := by
  apply String.ext
  simp [String.data_append]

/-- The full text after consumption extends the starting text by the ordered
concatenation of the content fragments' texts. -/
theorem consume_full_text (frags : List Fragment) (st : AggregationState) :
    (consume frags st).full_text = st.full_text ++ concatTexts (contentTexts frags) := by
  induction frags generalizing st with
  | nil => simp [consume, contentTexts, concatTexts, str_append_empty]
  | cons f rest ih =>
    cases f with
    | content t =>
      simp only [consume, List.foldl_cons] at *
      rw [ih, contentTexts, concatTexts, consumeFragment, str_append_assoc]
    | functionCallStart n =>
      simp only [consume, List.foldl_cons] at *
      rw [ih, contentTexts, consumeFragment]
    | functionCallArgsDelta t =>
      simp only [consume, List.foldl_cons] at *
      rw [ih, contentTexts, consumeFragment]

theorem appendToLast_cons (c : FunctionCallRecord) (l : List FunctionCallRecord)
    (t : String) (h : l ≠ []) :
    appendToLast (c :: l) t = c :: appendToLast l t := by
  cases l with
  | nil => exact absurd rfl h
  | cons c' rest => rfl

theorem appendToLast_ne_nil (l : List FunctionCallRecord) (t : String) (h : l ≠ []) :
    appendToLast l t ≠ [] := by
  cases l with
  | nil => exact absurd rfl h
  | cons c rest =>
    cases rest with
    | nil => simp [appendToLast]
    | cons c' rest' => simp [appendToLast]

theorem appendToLast_append (cs ds : List FunctionCallRecord) (t : String)
    (h : ds ≠ []) :
    appendToLast (cs ++ ds) t = cs ++ appendToLast ds t := by
  induction cs with
  | nil => rfl
  | cons c cs' ih =>
    have hne : cs' ++ ds ≠ [] := by
      simp [List.append_eq_nil]
      intro _ h'
      exact h h'
    rw [List.cons_append, appendToLast_cons c (cs' ++ ds) t hne, ih, List.cons_append]

theorem stepCalls_ne_nil (cs : List FunctionCallRecord) (f : Fragment) (h : cs ≠ []) :
    stepCalls cs f ≠ [] := by
  cases f with
  | content t => exact h
  | functionCallStart n => simp [stepCalls]
  | functionCallArgsDelta t => exact appendToLast_ne_nil cs t h

theorem stepCalls_append (cs ds : List FunctionCallRecord) (f : Fragment)
    (h : ds ≠ []) :
    stepCalls (cs ++ ds) f = cs ++ stepCalls ds f := by
  cases f with
  | content t => rfl
  | functionCallStart n => simp [stepCalls]
  | functionCallArgsDelta t => exact appendToLast_append cs ds t h

theorem foldl_stepCalls_append (frags : List Fragment)
    (cs ds : List FunctionCallRecord) (h : ds ≠ []) :
    List.foldl stepCalls (cs ++ ds) frags = cs ++ List.foldl stepCalls ds frags := by
  induction frags generalizing ds with
  | nil => rfl
  | cons f rest ih =>
    rw [List.foldl_cons, List.foldl_cons, stepCalls_append cs ds f h,
      ih (stepCalls ds f) (stepCalls_ne_nil ds f h)]

theorem consume_calls (frags : List Fragment) (st : AggregationState) :
    (consume frags st).calls = List.foldl stepCalls st.calls frags := by
  induction frags generalizing st with
  | nil => rfl
  | cons f rest ih =>
    rw [consume, List.foldl_cons, List.foldl_cons, ← consume]
    rw [ih (consumeFragment st f)]
    congr 1
    cases f <;> rfl

theorem foldl_stepCalls_single (frags : List Fragment) (c : FunctionCallRecord) :
    List.foldl stepCalls [c] frags =
      ⟨c.name, c.arguments ++ concatTexts (argsBefore frags)⟩ :: specCalls frags := by
  induction frags generalizing c with
  | nil =>
    simp [List.foldl_nil, argsBefore, concatTexts, specCalls, str_append_empty]
  | cons f rest ih =>
    cases f with
    | content t =>
      rw [List.foldl_cons]
      show List.foldl stepCalls [c] rest = _
      rw [ih c, argsBefore, specCalls]
    | functionCallStart n =>
      rw [List.foldl_cons]
      show List.foldl stepCalls ([c] ++ [⟨n, ""⟩]) rest = _
      rw [foldl_stepCalls_append rest [c] [⟨n, ""⟩] (by simp),
        ih ⟨n, ""⟩, argsBefore, specCalls]
      simp [concatTexts, str_append_empty, str_empty_append]
    | functionCallArgsDelta t =>
      rw [List.foldl_cons]
      show List.foldl stepCalls [⟨c.name, c.arguments ++ t⟩] rest = _
      rw [ih ⟨c.name, c.arguments ++ t⟩, argsBefore, specCalls, concatTexts,
        str_append_assoc]

theorem foldl_stepCalls_nil (frags : List Fragment) :
    List.foldl stepCalls [] frags = specCalls frags := by
  induction frags with
  | nil => rfl
  | cons f rest ih =>
    cases f with
    | content t => rw [List.foldl_cons]; exact ih
    | functionCallStart n =>
      rw [List.foldl_cons]
      show List.foldl stepCalls [⟨n, ""⟩] rest = _
      rw [foldl_stepCalls_single rest ⟨n, ""⟩, specCalls]
      simp [str_empty_append]
    | functionCallArgsDelta t => rw [List.foldl_cons]; exact ih

theorem consume_calls_spec (frags : List Fragment) :
    (consume frags initState).calls = specCalls frags := by
  rw [consume_calls frags initState]
  exact foldl_stepCalls_nil frags

theorem charCount_eq_zero (s : String) (c : Char) (h : ¬ c ∈ s.toList) :
    charCount s c = 0 := by
  rw [charCount, List.length_eq_zero, List.filter_eq_nil_iff]
  intro a ha
  simp only [decide_eq_true_eq]
  intro hac
  exact h (hac ▸ ha)

theorem sentenceIncrement_eq (s : String) :
    sentenceIncrement s = sentencePunctCount s := by
  rw [sentenceIncrement]
  split
  · rfl
  · rename_i h
    simp only [hasSentencePunct, List.any_eq_true, not_exists, not_and] at h
    have h1 : ¬ ('.' : Char) ∈ s.toList :=
      fun hm => h '.' (by simp) (List.elem_iff.mpr hm)
    have h2 : ¬ ('!' : Char) ∈ s.toList :=
      fun hm => h '!' (by simp) (List.elem_iff.mpr hm)
    have h3 : ¬ ('?' : Char) ∈ s.toList :=
      fun hm => h '?' (by simp) (List.elem_iff.mpr hm)
    rw [sentencePunctCount, charCount_eq_zero s '.' h1,
      charCount_eq_zero s '!' h2, charCount_eq_zero s '?' h3]

theorem word_count_step_le (st : AggregationState) (f : Fragment) :
    st.word_count ≤ (consumeFragment st f).word_count := by
  cases f with
  | content t => exact Nat.le_add_right _ _
  | functionCallStart n => exact Nat.le_refl _
  | functionCallArgsDelta t => exact Nat.le_refl _

theorem sentence_count_step_le (st : AggregationState) (f : Fragment) :
    st.sentence_count ≤ (consumeFragment st f).sentence_count := by
  cases f with
  | content t => exact Nat.le_add_right _ _
  | functionCallStart n => exact Nat.le_refl _
  | functionCallArgsDelta t => exact Nat.le_refl _

theorem consume_counts_le (frags : List Fragment) (st : AggregationState) :
    st.word_count ≤ (consume frags st).word_count ∧
      st.sentence_count ≤ (consume frags st).sentence_count := by
  induction frags generalizing st with
  | nil => exact ⟨Nat.le_refl _, Nat.le_refl _⟩
  | cons f rest ih =>
    refine ⟨Nat.le_trans (word_count_step_le st f) ?_,
      Nat.le_trans (sentence_count_step_le st f) ?_⟩
    · exact (ih (consumeFragment st f)).1
    · exact (ih (consumeFragment st f)).2

theorem consumeFragment_delta_of_no_call (st : AggregationState) (t : String)
    (h : st.calls = []) :
    consumeFragment st (.functionCallArgsDelta t) = st := by
  cases st with
  | mk ft cs w sc =>
    simp only [AggregationState.calls] at h
    subst h
    rfl

theorem consumeSource_interrupts {ε : Type} (pre : List Fragment) (cause : ε)
    (rest : List (Except ε Fragment)) (st : AggregationState) :
    consumeSource (pre.map Except.ok ++ Except.error cause :: rest) st =
      .interrupted (consume pre st) cause := by
  induction pre generalizing st with
  | nil => rfl
  | cons f pre' ih =>
    rw [List.map_cons, List.cons_append]
    show consumeSource (pre'.map Except.ok ++ Except.error cause :: rest)
      (consumeFragment st f) = _
    rw [ih (consumeFragment st f)]
    rfl

theorem consumeCancellable_cancels (n : Nat) (frags : List Fragment)
    (st : AggregationState) (h : n < frags.length) :
    consumeCancellable n frags st = .cancelled (consume (frags.take n) st) := by
  induction n generalizing frags st with
  | zero =>
    cases frags with
    | nil => simp at h
    | cons f rest => rfl
  | succ n ih =>
    cases frags with
    | nil => simp at h
    | cons f rest =>
      show consumeCancellable n rest (consumeFragment st f) = _
      rw [ih rest (consumeFragment st f) (Nat.succ_lt_succ_iff.mp h)]
      rfl

theorem applyFunctionCallDelta_frame (st : AggregationState) (fc : FunctionCallDelta) :
    (applyFunctionCallDelta st fc).full_text = st.full_text ∧
      (applyFunctionCallDelta st fc).word_count = st.word_count ∧
      (applyFunctionCallDelta st fc).sentence_count = st.sentence_count := by
  rw [applyFunctionCallDelta]
  split
  · exact ⟨rfl, rfl, rfl⟩
  · split
    · exact ⟨rfl, rfl, rfl⟩
    · exact ⟨rfl, rfl, rfl⟩

/-- C1: for every sequence of fragments, the accumulated full text equals
the ordered concatenation of the content fragments' texts, and this holds
at every intermediate point of consumption (after any number `n` of
fragments), not only when the sequence ends. -/
theorem full_text_is_concat_at_every_point (frags : List Fragment) (n : Nat) :
    (consume frags initState).full_text = concatTexts (contentTexts frags) ∧
      (consume (frags.take n) initState).full_text =
        concatTexts (contentTexts (frags.take n)) := by
  constructor
  · rw [consume_full_text frags initState]
    exact str_empty_append _
  · rw [consume_full_text (frags.take n) initState]
    exact str_empty_append _

/-- C2: after consuming any fragment sequence, the recorded calls are
exactly one record per function-call start, whose arguments are the
in-order concatenation of exactly the argument deltas arriving after that
start and before the next one (`specCalls` states this grouping); in
particular the get_weather scenario yields the single expected record. -/
theorem calls_group_by_starts :
    (∀ frags : List Fragment, (consume frags initState).calls = specCalls frags) ∧
      (consume weatherFrags initState).calls =
        [⟨"get_weather", "\x7b\"loc\":\"NYC\"\x7d"⟩] :=
  ⟨consume_calls_spec, by decide⟩

/-- C3 counterexample: on the fragments `"Hello "`, `"world"`, `"!"` the
code yields `word_count = 3` (each fragment's `split()` contributes one
token, `"!"` included), so the claimed final statistics with
`word_count = 2` are false. -/
theorem hello_scenario_as_claimed_false :
    ¬ ((consume helloFrags initState).full_text = "Hello world!" ∧
       (consume helloFrags initState).word_count = 2 ∧
       (consume helloFrags initState).sentence_count = 1) := by
  decide

/-- C3 amended: consuming exactly the three content fragments `"Hello "`,
`"world"`, `"!"` in that order ends with `full_text = "Hello world!"`,
`word_count = 3` and `sentence_count = 1`. -/
theorem hello_scenario_amended :
    (consume helloFrags initState).full_text = "Hello world!" ∧
      (consume helloFrags initState).word_count = 3 ∧
      (consume helloFrags initState).sentence_count = 1 := by
  decide

/-- C4: processing a content fragment increases `word_count` by exactly the
number of whitespace-delimited tokens of that fragment's text alone, and
`sentence_count` by exactly the number of `.`, `!`, `?` characters of that
fragment's text alone, whatever the accumulated state is. -/
theorem content_updates_counts_per_fragment (st : AggregationState) (t : String) :
    (consumeFragment st (.content t)).word_count = st.word_count + countWords t ∧
      (consumeFragment st (.content t)).sentence_count =
        st.sentence_count + sentencePunctCount t := by
  refine ⟨rfl, ?_⟩
  show st.sentence_count + sentenceIncrement t = st.sentence_count + sentencePunctCount t
  rw [sentenceIncrement_eq]

/-- C5: an argument delta arriving while no call is recorded is ignored:
the whole state is left unchanged by it, and every subsequent fragment is
still processed normally. -/
theorem args_delta_without_open_call_ignored (st : AggregationState) (t : String)
    (rest : List Fragment) (h : st.calls = []) :
    consumeFragment st (.functionCallArgsDelta t) = st ∧
      consume (Fragment.functionCallArgsDelta t :: rest) st = consume rest st := by
  refine ⟨consumeFragment_delta_of_no_call st t h, ?_⟩
  show consume rest (consumeFragment st (.functionCallArgsDelta t)) = consume rest st
  rw [consumeFragment_delta_of_no_call st t h]

theorem args_delta_without_open_call_ignored_witness :
    initState.calls = [] ∧
      (consumeFragment initState (.functionCallArgsDelta "x") = initState ∧
        consume (Fragment.functionCallArgsDelta "x" :: [Fragment.content "hi"]) initState =
          consume [Fragment.content "hi"] initState) :=
  ⟨rfl, args_delta_without_open_call_ignored initState "x" [Fragment.content "hi"] rfl⟩

/-- C6: when the fragment source fails after delivering a prefix of
fragments, consumption yields an interrupted result carrying the partial
state and the cause, and that partial state's full text is the
concatenation of exactly the content fragments consumed before the fault. -/
theorem interrupted_source_carries_part_state (pre : List Fragment) (cause : String)
    (rest : List (Except String Fragment)) :
    consumeSource (pre.map Except.ok ++ Except.error cause :: rest) initState =
      .interrupted (consume pre initState) cause ∧
      (consume pre initState).full_text = concatTexts (contentTexts pre) := by
  refine ⟨consumeSource_interrupts pre cause rest initState, ?_⟩
  rw [consume_full_text]
  exact str_empty_append _

/-- C7: cancelling after the first `n` fragments (with fragments remaining)
yields a result tagged `cancelled` whose state is exactly the consumption
of the first `n` fragments, so its full text is the concatenation of
exactly the first `n` content fragments' texts; cancellation is observed
only at a fragment boundary. -/
theorem cancellation_returns_taken_state (n : Nat) (frags : List Fragment)
    (h : n < frags.length) :
    consumeCancellable n frags initState =
      .cancelled (consume (frags.take n) initState) ∧
      (consume (frags.take n) initState).full_text =
        concatTexts (contentTexts (frags.take n)) := by
  refine ⟨consumeCancellable_cancels n frags initState h, ?_⟩
  rw [consume_full_text]
  exact str_empty_append _

theorem cancellation_returns_taken_state_witness :
    2 < helloFrags.length ∧
      (consumeCancellable 2 helloFrags initState =
        .cancelled (consume (helloFrags.take 2) initState) ∧
        (consume (helloFrags.take 2) initState).full_text =
          concatTexts (contentTexts (helloFrags.take 2))) :=
  ⟨by decide, cancellation_returns_taken_state 2 helloFrags (by decide)⟩

/-- C8: the word and sentence counters are monotonically non-decreasing:
no single fragment and no fragment sequence ever decreases either. -/
theorem counts_monotone (st : AggregationState) (f : Fragment)
    (frags : List Fragment) :
    (st.word_count ≤ (consumeFragment st f).word_count ∧
      st.sentence_count ≤ (consumeFragment st f).sentence_count) ∧
      (st.word_count ≤ (consume frags st).word_count ∧
        st.sentence_count ≤ (consume frags st).sentence_count) :=
  ⟨⟨word_count_step_le st f, sentence_count_step_le st f⟩, consume_counts_le frags st⟩

/-- C9 counterexample: a chunk whose delta carries no content but does
carry a function-call delta with a name changes the recorded calls, so a
no-content chunk does not always leave the entire state unchanged. -/
theorem no_content_chunk_claim_false :
    ¬ (processChunk initState ⟨none, some ⟨some "get_weather", none⟩⟩ = initState) := by
  decide

/-- C9 amended: a chunk whose delta carries no content leaves `full_text`,
`word_count` and `sentence_count` unchanged; when it also carries no
function-call delta, the entire state is unchanged. -/
theorem no_content_chunk_frame (st : AggregationState) (c : ChunkDelta)
    (h : c.content = none) :
    ((processChunk st c).full_text = st.full_text ∧
      (processChunk st c).word_count = st.word_count ∧
      (processChunk st c).sentence_count = st.sentence_count) ∧
      (c.function_call = none → processChunk st c = st) := by
  constructor
  · cases hfc : c.function_call with
    | none => simp [processChunk, h, hfc]
    | some fc =>
      simp only [processChunk, h, hfc]
      exact applyFunctionCallDelta_frame st fc
  · intro hfc
    simp [processChunk, h, hfc]

theorem no_content_chunk_frame_witness :
    (ChunkDelta.mk none none).content = none ∧
      (((processChunk initState ⟨none, none⟩).full_text = initState.full_text ∧
        (processChunk initState ⟨none, none⟩).word_count = initState.word_count ∧
        (processChunk initState ⟨none, none⟩).sentence_count = initState.sentence_count) ∧
        ((ChunkDelta.mk none none).function_call = none →
          processChunk initState ⟨none, none⟩ = initState)) :=
  ⟨rfl, no_content_chunk_frame initState ⟨none, none⟩ rfl⟩

/-- C10: the guarded sentence-count update (adding the punctuation count
only when the fragment contains one of `.`, `!`, `?`) is extensionally
equal to unconditionally adding the punctuation count, for every string. -/
theorem guarded_sentence_update_equiv (s : String) :
    sentenceIncrement s = sentencePunctCount s :=
  sentenceIncrement_eq s

end StreamAgg
